import Mathlib

/-!
Verification of the MediaCollect batch-orchestration and persistence core.

The definitions below are a shallow embedding of the Python source:

* `updateTable` embeds `DatabaseManager._update_table`
  (src/core/database_manager.py, lines 193-249), with a MySQL table
  modelled as a list of rows in insertion order and the primary-key
  projection modelled as an explicit key function.  Tables created by
  pandas `to_sql` carry no unique constraint, so duplicate-key rows can
  coexist, exactly as in the list model.
* `updateTableRun` embeds the same method phase by phase, with each
  phase committing separately (the source issues `conn.commit()` /
  autocommitting `to_sql` calls between phases) and an optional
  injected failure point standing for an exception raised inside a
  phase; the surrounding `except ... raise` re-raises to the caller.
-/

/-- Rows of the scratch diff table are the key projection of the batch;
the target table and the diff table together form the durable state
touched by `DatabaseManager._update_table`. -/
structure DbTables (R K : Type) where
  table : List R
  diff : List K
deriving DecidableEq

/-- Embedding of `DatabaseManager._update_table` (delete-then-insert
upsert) as a pure function on the target table: an empty batch returns
the table untouched (source line 209-210); otherwise every existing row
whose key tuple occurs in the batch is deleted and the whole batch is
appended. -/
def updateTable {R K : Type} [DecidableEq K] (key : R → K) (df table : List R) : List R :=
  if df.isEmpty then table
  else table.filter (fun r => decide (key r ∉ df.map key)) ++ df

/-- The four phases of `_update_table`: truncate the diff table, load
the batch keys into it, delete matching rows from the target table,
bulk-insert the batch. -/
inductive UpPhase where
  | truncateDiff
  | loadDiff
  | deleteMatching
  | insertBatch
deriving DecidableEq

/-- Effect of a single committed phase on the durable state. -/
def phaseStep {R K : Type} [DecidableEq K] (key : R → K) (df : List R)
    (s : DbTables R K) : UpPhase → DbTables R K
  | UpPhase.truncateDiff => { s with diff := [] }
  | UpPhase.loadDiff => { s with diff := s.diff ++ df.map key }
  | UpPhase.deleteMatching =>
      { s with table := s.table.filter (fun r => decide (key r ∉ s.diff)) }
  | UpPhase.insertBatch => { s with table := s.table ++ df }

/-- Result of running `_update_table`: either a normal return or an
exception re-raised to the caller, in both cases with the durable state
at that moment (each phase commits separately in the source). -/
inductive UpResult (R K : Type) where
  | ok (s : DbTables R K)
  | raised (s : DbTables R K)
deriving DecidableEq

/-- Runs the listed phases in order; a phase equal to the injected
failure point raises without applying its effect, leaving the state the
earlier phases committed. -/
def runPhasesGo {R K : Type} [DecidableEq K] (key : R → K) (df : List R)
    (failAt : Option UpPhase) : List UpPhase → DbTables R K → UpResult R K
  | [], s => UpResult.ok s
  | p :: ps, s =>
      if failAt = some p then UpResult.raised s
      else runPhasesGo key df failAt ps (phaseStep key df s p)

/-- Phase order of `_update_table`. -/
def updateTablePhases : List UpPhase :=
  [UpPhase.truncateDiff, UpPhase.loadDiff, UpPhase.deleteMatching, UpPhase.insertBatch]

/-- Phase-level embedding of `DatabaseManager._update_table` with an
injected failure point; the empty-batch early return happens before the
protected block, hence before any failure can occur. -/
def updateTableRun {R K : Type} [DecidableEq K] (key : R → K) (df : List R)
    (failAt : Option UpPhase) (s : DbTables R K) : UpResult R K :=
  if df.isEmpty then UpResult.ok s
  else runPhasesGo key df failAt updateTablePhases s

theorem updateTable_eq_filter_append {R K : Type} [DecidableEq K] (key : R → K)
    (df table : List R) :
    updateTable key df table
      = table.filter (fun r => decide (key r ∉ df.map key)) ++ df := by
  unfold updateTable
  rcases df with _ | ⟨a, df⟩
  · simp
  · simp

theorem filter_in_keys_self {R K : Type} [DecidableEq K] (key : R → K) (df : List R) :
    df.filter (fun r => decide (key r ∈ df.map key)) = df := by
  apply List.filter_eq_self.mpr
  intro r hr
  simp only [decide_eq_true_eq]
  exact List.mem_map_of_mem key hr

theorem filter_notin_keys_self {R K : Type} [DecidableEq K] (key : R → K) (df : List R) :
    df.filter (fun r => decide (key r ∉ df.map key)) = [] := by
  apply List.filter_eq_nil_iff.mpr
  intro r hr
  simp only [decide_eq_true_eq, not_not]
  exact List.mem_map_of_mem key hr

theorem updateTable_filter_in_keys {R K : Type} [DecidableEq K] (key : R → K)
    (df t : List R) :
    (updateTable key df t).filter (fun r => decide (key r ∈ df.map key)) = df := by
  rw [updateTable_eq_filter_append, List.filter_append]
  rw [filter_in_keys_self]
  have h1 : (t.filter (fun r => decide (key r ∉ df.map key))).filter
      (fun r => decide (key r ∈ df.map key)) = [] := by
    apply List.filter_eq_nil_iff.mpr
    intro r hr
    have := List.of_mem_filter hr
    simp only [decide_eq_true_eq] at this ⊢
    exact this
  rw [h1, List.nil_append]

theorem filter_key_eq_of_nodup {R K : Type} [DecidableEq K] (key : R → K)
    (df : List R) (h : (df.map key).Nodup) (r : R) (hr : r ∈ df) :
    df.filter (fun x => decide (key x = key r)) = [r] := by
  induction df with
  | nil => cases hr
  | cons a df ih =>
      simp only [List.map_cons, List.nodup_cons] at h
      rcases List.mem_cons.mp hr with h1 | h1
      · subst h1
        simp only [List.filter_cons, decide_eq_true_eq, if_true]
        have : df.filter (fun x => decide (key x = key r)) = [] := by
          apply List.filter_eq_nil_iff.mpr
          intro x hx
          simp only [decide_eq_true_eq]
          intro hxa
          exact h.1 (hxa ▸ List.mem_map_of_mem key hx)
        rw [this]
      · have hka : ¬ (key a = key r) := by
          intro hEq
          exact h.1 (hEq ▸ List.mem_map_of_mem key h1)
        simp only [List.filter_cons, decide_eq_true_eq]
        rw [if_neg hka]
        exact ih h.2 h1

theorem filter_filter_self {R : Type} (p : R → Bool) (t : List R) :
    (t.filter p).filter p = t.filter p :=
  List.filter_eq_self.mpr (fun _ hr => List.of_mem_filter hr)

theorem updateTable_frame {R K : Type} [DecidableEq K] (key : R → K) (df t : List R) :
    (updateTable key df t).filter (fun r => decide (key r ∉ df.map key))
      = t.filter (fun r => decide (key r ∉ df.map key)) := by
  rw [updateTable_eq_filter_append, List.filter_append, filter_notin_keys_self,
    List.append_nil, filter_filter_self]

/-- C1 counterexample: calling `_update_table` on an empty table with a
batch holding two records that share the key tuple K leaves BOTH rows in
the table (the bulk insert of phase 3 inserts the whole batch), so the
table holds two rows for the single distinct key of the batch and the
earlier duplicate is not discarded. -/
theorem upsert_duplicate_keys_not_discarded :
    updateTable Prod.fst [("K", 1), ("K", 2)] ([] : List (String × Int))
      = [("K", 1), ("K", 2)] ∧
    ((updateTable Prod.fst [("K", 1), ("K", 2)] ([] : List (String × Int))).filter
      (fun r => decide (r.1 = "K"))).length = 2 ∧
    ("K", 1) ∈ updateTable Prod.fst [("K", 1), ("K", 2)] ([] : List (String × Int)) := by
  refine ⟨by decide, by decide, by decide⟩

/-- C1 (amended): after a successful `_update_table` call whose batch has
pairwise distinct key tuples, the target table contains exactly one row
per key tuple of the batch, equal to the corresponding input record: the
rows whose key occurs in the batch are exactly the batch, and for each
input record the rows carrying its key are exactly that record.  (With
duplicate keys in the batch every occurrence is inserted; the keep-last
dedup happens only in the hashtag save path, before `_update_table`.) -/
theorem upsert_distinct_keys_exact {R K : Type} [DecidableEq K] (key : R → K)
    (df t : List R) (h : (df.map key).Nodup) :
    (updateTable key df t).filter (fun r => decide (key r ∈ df.map key)) = df ∧
    ∀ r ∈ df, (updateTable key df t).filter (fun x => decide (key x = key r)) = [r] := by
  constructor
  · exact updateTable_filter_in_keys key df t
  · intro r hr
    rw [updateTable_eq_filter_append, List.filter_append]
    have h1 : (t.filter (fun x => decide (key x ∉ df.map key))).filter
        (fun x => decide (key x = key r)) = [] := by
      apply List.filter_eq_nil_iff.mpr
      intro x hx
      have hx2 := List.of_mem_filter hx
      simp only [decide_eq_true_eq] at hx2 ⊢
      intro hEq
      exact hx2 (hEq ▸ List.mem_map_of_mem key hr)
    rw [h1, List.nil_append, filter_key_eq_of_nodup key df h r hr]

theorem upsert_distinct_keys_exact_witness :
    ((([("A", 1), ("B", 2)] : List (String × Int)).map Prod.fst).Nodup) ∧
    (updateTable Prod.fst [("A", 1), ("B", 2)] [("A", 0), ("C", 9)]).filter
      (fun r => decide (Prod.fst r ∈ ([("A", 1), ("B", 2)] : List (String × Int)).map Prod.fst))
      = [("A", 1), ("B", 2)] :=
  ⟨by decide,
    (upsert_distinct_keys_exact Prod.fst [("A", 1), ("B", 2)] [("A", 0), ("C", 9)]
      (by decide)).1⟩

/-- C6: `_update_table` is a merge, not a replace-all: the rows of the
target table whose key tuple does not occur in the batch are exactly the
same (same records, same relative order) after the call as before; and
concretely, upserting A_v1 into an empty table and then upserting
A_v2 with B_v1 leaves exactly the rows A_v2 and B_v1. -/
theorem upsert_merge_not_replace {R K : Type} [DecidableEq K] (key : R → K)
    (df t : List R) :
    (updateTable key df t).filter (fun r => decide (key r ∉ df.map key))
      = t.filter (fun r => decide (key r ∉ df.map key)) ∧
    updateTable Prod.fst [("A", 2), ("B", 1)]
        (updateTable Prod.fst [("A", 1)] ([] : List (String × Int)))
      = [("A", 2), ("B", 1)] :=
  ⟨updateTable_frame key df t, by decide⟩

/-- C7 counterexample: upserting the duplicate-key batch
[(K,1), (K,2)] twice into an empty table leaves TWO rows for the keys of
the batch, while the batch has one distinct key tuple, so the table does
not hold exactly one row per distinct key of the batch. -/
theorem upsert_twice_duplicate_keys_counterexample :
    ((updateTable Prod.fst [("K", 1), ("K", 2)]
        (updateTable Prod.fst [("K", 1), ("K", 2)] ([] : List (String × Int)))).filter
      (fun r => decide (Prod.fst r ∈ ([("K", 1), ("K", 2)] : List (String × Int)).map Prod.fst))).length
      = 2 ∧
    ((([("K", 1), ("K", 2)] : List (String × Int)).map Prod.fst).dedup).length = 1 ∧
    (2 : Nat) ≠ 1 := by
  refine ⟨by decide, by decide, by decide⟩

/-- C7 (amended): for EVERY batch, duplicate keys included,
`_update_table` is idempotent as a table transformer — running the same
batch twice yields the very same table as running it once — and after
the two calls the rows carrying the batch's keys are exactly the batch,
so their count is the batch length (hence never double); when the
batch's key tuples are pairwise distinct this count equals the number
of distinct key tuples of the batch. -/
theorem upsert_idempotent {R K : Type} [DecidableEq K] (key : R → K) (df t : List R) :
    updateTable key df (updateTable key df t) = updateTable key df t ∧
    ((updateTable key df (updateTable key df t)).filter
      (fun r => decide (key r ∈ df.map key))).length = df.length ∧
    ((df.map key).Nodup →
      ((updateTable key df (updateTable key df t)).filter
        (fun r => decide (key r ∈ df.map key))).length = (df.map key).dedup.length) := by
  have hidem : updateTable key df (updateTable key df t) = updateTable key df t := by
    rw [updateTable_eq_filter_append key df (updateTable key df t), updateTable_frame,
      ← updateTable_eq_filter_append]
  refine ⟨hidem, ?_, ?_⟩
  · rw [hidem, updateTable_filter_in_keys]
  · intro h
    rw [hidem, updateTable_filter_in_keys, List.Nodup.dedup h, List.length_map]

theorem upsert_idempotent_witness :
    (updateTable Prod.fst [("K", 1), ("K", 2)]
        (updateTable Prod.fst [("K", 1), ("K", 2)] ([] : List (String × Int)))
      = updateTable Prod.fst [("K", 1), ("K", 2)] ([] : List (String × Int))) ∧
    (((updateTable Prod.fst [("K", 1), ("K", 2)]
        (updateTable Prod.fst [("K", 1), ("K", 2)] ([] : List (String × Int)))).filter
      (fun r => decide (Prod.fst r
        ∈ ([("K", 1), ("K", 2)] : List (String × Int)).map Prod.fst))).length
      = ([("K", 1), ("K", 2)] : List (String × Int)).length) ∧
    ((([("A", 1), ("B", 2)] : List (String × Int)).map Prod.fst).Nodup) ∧
    (((updateTable Prod.fst [("A", 1), ("B", 2)]
        (updateTable Prod.fst [("A", 1), ("B", 2)] [("C", 7)])).filter
      (fun r => decide (Prod.fst r
        ∈ ([("A", 1), ("B", 2)] : List (String × Int)).map Prod.fst))).length
      = (([("A", 1), ("B", 2)] : List (String × Int)).map Prod.fst).dedup.length) :=
  ⟨(upsert_idempotent Prod.fst [("K", 1), ("K", 2)] ([] : List (String × Int))).1,
    (upsert_idempotent Prod.fst [("K", 1), ("K", 2)] ([] : List (String × Int))).2.1,
    by decide,
    (upsert_idempotent Prod.fst [("A", 1), ("B", 2)] [("C", 7)]).2.2 (by decide)⟩

/-- C2 counterexample: with table [(K,0)] and batch [(K,1)], a failure in
the bulk-insert phase leaves the run raising to the caller but the target
table EMPTY — the delete of phase 2 was already committed separately, so
the table is not left unchanged from its pre-call state. -/
theorem upsert_midfailure_counterexample :
    updateTableRun Prod.fst [("K", 1)] (some UpPhase.insertBatch)
        (⟨[("K", 0)], []⟩ : DbTables (String × Int) String)
      = UpResult.raised ⟨[], ["K"]⟩ ∧
    (⟨[], ["K"]⟩ : DbTables (String × Int) String).table ≠ [("K", 0)] := by
  refine ⟨by decide, by decide⟩

/-- C2 (amended): the three-phase upsert does NOT run in one transaction;
each phase commits separately.  If any phase fails, an error is raised to
the caller, but the effects of the phases already completed remain
durable: in particular, a failure in the final bulk-insert leaves the
target table with the batch's matching rows already deleted.  On a
failure-free run the final state is the merge result together with the
rebuilt diff table. -/
theorem upsert_phase_failure_raises {R K : Type} [DecidableEq K] (key : R → K)
    (df : List R) (s : DbTables R K) (hdf : df ≠ []) :
    (∀ p : UpPhase, ∃ s2, updateTableRun key df (some p) s = UpResult.raised s2) ∧
    updateTableRun key df (some UpPhase.insertBatch) s
      = UpResult.raised ⟨s.table.filter (fun r => decide (key r ∉ df.map key)), df.map key⟩ ∧
    updateTableRun key df none s
      = UpResult.ok ⟨updateTable key df s.table, df.map key⟩ := by
  have hne : df.isEmpty = false := by
    rcases df with _ | ⟨a, df⟩
    · exact absurd rfl hdf
    · rfl
  refine ⟨?_, ?_, ?_⟩
  · intro p
    cases p
    · exact ⟨s, by simp [updateTableRun, hne, updateTablePhases, runPhasesGo]⟩
    · exact ⟨{ s with diff := [] },
        by simp [updateTableRun, hne, updateTablePhases, runPhasesGo, phaseStep]⟩
    · exact ⟨{ s with diff := df.map key },
        by simp [updateTableRun, hne, updateTablePhases, runPhasesGo, phaseStep]⟩
    · exact ⟨⟨s.table.filter (fun r => decide (key r ∉ df.map key)), df.map key⟩,
        by simp [updateTableRun, hne, updateTablePhases, runPhasesGo, phaseStep]⟩
  · simp [updateTableRun, hne, updateTablePhases, runPhasesGo, phaseStep]
  · simp only [updateTableRun, hne, Bool.false_eq_true, if_false, updateTablePhases,
      runPhasesGo, phaseStep, updateTable_eq_filter_append]
    simp [updateTable_eq_filter_append]

theorem upsert_phase_failure_raises_witness :
    (([("K", 1)] : List (String × Int)) ≠ []) ∧
    updateTableRun Prod.fst [("K", 1)] (some UpPhase.insertBatch)
        (⟨[("K", 0), ("L", 5)], ["old"]⟩ : DbTables (String × Int) String)
      = UpResult.raised
          ⟨([("K", 0), ("L", 5)] : List (String × Int)).filter
            (fun r => decide (Prod.fst r ∉ ([("K", 1)] : List (String × Int)).map Prod.fst)),
            ([("K", 1)] : List (String × Int)).map Prod.fst⟩ :=
  ⟨by decide,
    (upsert_phase_failure_raises Prod.fst [("K", 1)]
      (⟨[("K", 0), ("L", 5)], ["old"]⟩ : DbTables (String × Int) String)
      (by decide)).2.1⟩

/-!
Time-range splitting (`TimeInterval.split_by_days` / `split_by_months` /
`split_by_years`, src/batch_time_collector.py lines 74-177) and the
validation in `BatchTimeCollector.collect_hashtag_with_time_split`
(lines 231-265).

A Python `datetime` flowing through this code is modelled at day
granularity (`TimeInterval.parse_date` always yields midnight and the
splitters add whole days, months or years): `MDate.mi` is the month
index `year * 12 + (month - 1)` and `MDate.day` the day of month, so
that the lexicographic order on `(mi, day)` is the `datetime` order.
`relativedelta(months=k)` adds `k` to the month index and clamps the
day of month to the target month's length; `timedelta(days=n)` advances
the calendar by `n` single days.  The Python `while` loop is embedded
with explicit fuel; the fuel chosen in the top-level definitions is
proved sufficient for every positive batch size, the only sizes for
which the Python loop terminates.
-/

/-- Calendar point at day granularity: month index `year*12 + (month-1)`
plus day of month. -/
structure MDate where
  mi : Int
  day : Int
deriving DecidableEq

/-- Strict `datetime` order: lexicographic on (month index, day). -/
def MDate.Lt (a b : MDate) : Prop :=
  a.mi < b.mi ∨ (a.mi = b.mi ∧ a.day < b.day)

instance (a b : MDate) : Decidable (MDate.Lt a b) := by
  unfold MDate.Lt
  infer_instance

/-- Gregorian leap-year rule used by `calendar.monthrange`. -/
def isLeapYear (y : Int) : Bool :=
  y % 4 == 0 && (y % 100 != 0 || y % 400 == 0)

/-- Length in days of the month with index `mi` (0 = January of year 0),
as computed by `calendar.monthrange` and used by `relativedelta` for
day-of-month clamping. -/
def daysInMonth (mi : Int) : Int :=
  if mi.emod 12 = 1 then (if isLeapYear (mi.ediv 12) then 29 else 28)
  else if mi.emod 12 = 3 ∨ mi.emod 12 = 5 ∨ mi.emod 12 = 8 ∨ mi.emod 12 = 10 then 30
  else 31

/-- Valid calendar dates: the day of month lies in the month, as every
Python `datetime` guarantees. -/
def MDateValid (d : MDate) : Prop :=
  1 ≤ d.day ∧ d.day ≤ daysInMonth d.mi

instance (d : MDate) : Decidable (MDateValid d) := by
  unfold MDateValid
  infer_instance

/-- Embeds `dateutil.relativedelta(months=k)`: advance the month index
and clamp the day of month to the target month. -/
def MDate.addMonths (k : Int) (d : MDate) : MDate :=
  ⟨d.mi + k, min d.day (daysInMonth (d.mi + k))⟩

/-- Embeds `dateutil.relativedelta(years=k)`: same month, day clamped
(Feb 29 of a leap year lands on Feb 28). -/
def MDate.addYears (k : Int) (d : MDate) : MDate :=
  ⟨d.mi + 12 * k, min d.day (daysInMonth (d.mi + 12 * k))⟩

/-- Successor day of the calendar. -/
def MDate.nextDay (d : MDate) : MDate :=
  if d.day < daysInMonth d.mi then ⟨d.mi, d.day + 1⟩ else ⟨d.mi + 1, 1⟩

/-- Predecessor day of the calendar. -/
def MDate.prevDay (d : MDate) : MDate :=
  if 1 < d.day then ⟨d.mi, d.day - 1⟩ else ⟨d.mi - 1, daysInMonth (d.mi - 1)⟩

def MDate.addDaysNat : Nat → MDate → MDate
  | 0, d => d
  | n + 1, d => MDate.addDaysNat n d.nextDay

def MDate.subDaysNat : Nat → MDate → MDate
  | 0, d => d
  | n + 1, d => MDate.subDaysNat n d.prevDay

/-- Embeds `datetime.timedelta(days=k)` applied to a `datetime`. -/
def MDate.addDays (k : Int) (d : MDate) : MDate :=
  if 0 ≤ k then MDate.addDaysNat k.toNat d else MDate.subDaysNat (-k).toNat d

/-- Shared body of the three `TimeInterval.split_by_*` loops: while the
cursor is strictly before the end, step it, clamp the candidate boundary
to the end, emit the interval and continue from the boundary.  `fuel`
bounds the iteration count; the callers pass a proved-sufficient fuel.  -/
def splitGo (step : MDate → MDate) (end_date : MDate) : Nat → MDate → List (MDate × MDate)
  | 0, _ => []
  | fuel + 1, cur =>
      if MDate.Lt cur end_date then
        (cur, if MDate.Lt end_date (step cur) then end_date else step cur)
          :: splitGo step end_date fuel
              (if MDate.Lt end_date (step cur) then end_date else step cur)
      else []

/-- Iteration bound for the day-stepping loop, one more than the
day-measure distance from start to end. -/
def daysFuel (end_date start_date : MDate) : Nat :=
  ((end_date.mi - start_date.mi) * 31 + (end_date.day - start_date.day)).toNat + 1

/-- Iteration bound for the month- and year-stepping loops. -/
def monthsFuel (end_date start_date : MDate) : Nat :=
  (end_date.mi - start_date.mi).toNat + 1

/-- Embeds `TimeInterval.split_by_days` (src/batch_time_collector.py
lines 109-142). -/
def TimeInterval.split_by_days (start_date end_date : MDate) (days_per_batch : Int) :
    List (MDate × MDate) :=
  splitGo (MDate.addDays days_per_batch) end_date (daysFuel end_date start_date) start_date

/-- Embeds `TimeInterval.split_by_months` (lines 74-107). -/
def TimeInterval.split_by_months (start_date end_date : MDate) (months_per_batch : Int) :
    List (MDate × MDate) :=
  splitGo (MDate.addMonths months_per_batch) end_date (monthsFuel end_date start_date) start_date

/-- Embeds `TimeInterval.split_by_years` (lines 144-177). -/
def TimeInterval.split_by_years (start_date end_date : MDate) (years_per_batch : Int) :
    List (MDate × MDate) :=
  splitGo (MDate.addYears years_per_batch) end_date (monthsFuel end_date start_date) start_date

/-- The coverage contract of the splitters: a non-empty interval list
starting at `start_date`, ending at `end_date`, with adjacent intervals
contiguous and every interval non-empty. -/
def coversRange (start_date end_date : MDate) (res : List (MDate × MDate)) : Prop :=
  res ≠ [] ∧
  res.head?.map Prod.fst = some start_date ∧
  res.getLast?.map Prod.snd = some end_date ∧
  List.Chain' (fun a b => a.2 = b.1) res ∧
  ∀ p ∈ res, MDate.Lt p.1 p.2

theorem MDate.lt_irrefl (a : MDate) : ¬ MDate.Lt a a := by
  unfold MDate.Lt
  omega

theorem MDate.lt_trans {a b c : MDate} (h1 : MDate.Lt a b) (h2 : MDate.Lt b c) :
    MDate.Lt a c := by
  unfold MDate.Lt at *
  omega

theorem MDate.lt_or_eq_of_not_lt (a b : MDate) (h : ¬ MDate.Lt b a) :
    MDate.Lt a b ∨ a = b := by
  cases a
  cases b
  simp only [MDate.Lt, MDate.mk.injEq] at *
  omega

theorem daysInMonth_pos (mi : Int) : 1 ≤ daysInMonth mi := by
  unfold daysInMonth
  split_ifs <;> omega

theorem daysInMonth_le (mi : Int) : daysInMonth mi ≤ 31 := by
  unfold daysInMonth
  split_ifs <;> omega

theorem MDate.lt_nextDay (d : MDate) : MDate.Lt d d.nextDay := by
  unfold MDate.nextDay
  split_ifs with h
  · exact Or.inr ⟨rfl, by show d.day < d.day + 1; omega⟩
  · exact Or.inl (by show d.mi < d.mi + 1; omega)

theorem MDate.nextDay_valid (d : MDate) (h : MDateValid d) : MDateValid d.nextDay := by
  unfold MDateValid MDate.nextDay at *
  split_ifs with h1
  · exact ⟨by show (1 : Int) ≤ d.day + 1; omega,
      by show d.day + 1 ≤ daysInMonth d.mi; omega⟩
  · exact ⟨by show (1 : Int) ≤ 1; omega,
      by show (1 : Int) ≤ daysInMonth (d.mi + 1); exact daysInMonth_pos (d.mi + 1)⟩

theorem MDate.addDaysNat_valid (n : Nat) (d : MDate) (h : MDateValid d) :
    MDateValid (MDate.addDaysNat n d) := by
  induction n generalizing d with
  | zero => exact h
  | succ m ih => exact ih d.nextDay (MDate.nextDay_valid d h)

theorem MDate.le_addDaysNat (n : Nat) (d : MDate) (h : MDateValid d) :
    MDate.Lt d (MDate.addDaysNat n d) ∨ MDate.addDaysNat n d = d := by
  induction n generalizing d with
  | zero => exact Or.inr rfl
  | succ m ih =>
      have hx := ih d.nextDay (MDate.nextDay_valid d h)
      unfold MDate.addDaysNat
      rcases hx with hx | hx
      · exact Or.inl (MDate.lt_trans (MDate.lt_nextDay d) hx)
      · rw [hx]
        exact Or.inl (MDate.lt_nextDay d)

theorem MDate.lt_addDaysNat (n : Nat) (d : MDate) (hn : 1 ≤ n) (h : MDateValid d) :
    MDate.Lt d (MDate.addDaysNat n d) := by
  rcases MDate.le_addDaysNat n d h with h1 | h1
  · exact h1
  · rcases n with _ | m
    · omega
    · exfalso
      have hx := MDate.le_addDaysNat m d.nextDay (MDate.nextDay_valid d h)
      unfold MDate.addDaysNat at h1
      rcases hx with hx | hx
      · have := MDate.lt_trans (MDate.lt_nextDay d) hx
        rw [h1] at this
        exact MDate.lt_irrefl d this
      · rw [hx] at h1
        have := MDate.lt_nextDay d
        rw [h1] at this
        exact MDate.lt_irrefl d this

/-- Day-count measure used to bound the day-stepping loop. -/
def dayMeasure (d : MDate) : Int := d.mi * 31 + d.day

theorem dayMeasure_nextDay (d : MDate) (h : MDateValid d) :
    dayMeasure d + 1 ≤ dayMeasure d.nextDay := by
  unfold MDateValid at h
  unfold dayMeasure MDate.nextDay
  have h31 := daysInMonth_le d.mi
  split_ifs with h1 <;> dsimp only <;> omega

theorem dayMeasure_addDaysNat_le (n : Nat) (d : MDate) (h : MDateValid d) :
    dayMeasure d ≤ dayMeasure (MDate.addDaysNat n d) := by
  induction n generalizing d with
  | zero => exact le_refl _
  | succ m ih =>
      have h1 := dayMeasure_nextDay d h
      have h2 := ih d.nextDay (MDate.nextDay_valid d h)
      unfold MDate.addDaysNat
      omega

theorem dayMeasure_addDaysNat (n : Nat) (d : MDate) (hn : 1 ≤ n) (h : MDateValid d) :
    dayMeasure d + 1 ≤ dayMeasure (MDate.addDaysNat n d) := by
  rcases n with _ | m
  · omega
  · have h1 := dayMeasure_nextDay d h
    have h2 := dayMeasure_addDaysNat_le m d.nextDay (MDate.nextDay_valid d h)
    unfold MDate.addDaysNat
    omega

theorem dayMeasure_mono {a b : MDate} (ha : MDateValid a) (hb : MDateValid b)
    (h : MDate.Lt a b) : dayMeasure a ≤ dayMeasure b := by
  unfold MDateValid at ha hb
  have h31a := daysInMonth_le a.mi
  have h31b := daysInMonth_le b.mi
  unfold MDate.Lt at h
  unfold dayMeasure
  omega

theorem MDate.addDays_of_nonneg (k : Int) (d : MDate) (hk : 0 ≤ k) :
    MDate.addDays k d = MDate.addDaysNat k.toNat d := by
  unfold MDate.addDays
  rw [if_pos hk]

theorem splitGo_stop (step : MDate → MDate) (end_date : MDate) (fuel : Nat) (cur : MDate)
    (h : ¬ MDate.Lt cur end_date) : splitGo step end_date fuel cur = [] := by
  cases fuel
  · rfl
  · unfold splitGo
    rw [if_neg h]

theorem coversRange_single (a b : MDate) (h : MDate.Lt a b) : coversRange a b [(a, b)] := by
  refine ⟨by simp, by simp, by simp, by simp, ?_⟩
  intro p hp
  simp only [List.mem_singleton] at hp
  rw [hp]
  exact h

theorem coversRange_cons (a b end_date : MDate) (rest : List (MDate × MDate))
    (hab : MDate.Lt a b) (hrest : coversRange b end_date rest) :
    coversRange a end_date ((a, b) :: rest) := by
  obtain ⟨hne, hhead, hlast, hchain, hall⟩ := hrest
  refine ⟨by simp, by simp, ?_, ?_, ?_⟩
  · rcases rest with _ | ⟨r, rs⟩
    · exact absurd rfl hne
    · rw [List.getLast?_cons_cons]
      exact hlast
  · apply List.chain'_cons'.mpr
    refine ⟨?_, hchain⟩
    intro y hy
    rcases rest with _ | ⟨r, rs⟩
    · simp at hy
    · simp only [List.head?_cons, Option.mem_def, Option.some.injEq] at hy
      simp only [List.head?_cons, Option.map_some'] at hhead
      subst hy
      simp only [Option.some.injEq] at hhead
      exact hhead.symm
  · intro p hp
    rcases List.mem_cons.mp hp with h1 | h1
    · rw [h1]
      exact hab
    · exact hall p h1

theorem splitGo_covers (step : MDate → MDate) (end_date : MDate)
    (P : MDate → Prop) (mu : MDate → Int)
    (hPend : P end_date)
    (hPstep : ∀ d, P d → P (step d))
    (hstep : ∀ d, P d → MDate.Lt d (step d))
    (hmonoLe : ∀ a b, P a → P b → MDate.Lt a b → mu a ≤ mu b)
    (hstepMu : ∀ d, P d → mu d + 1 ≤ mu (step d)) :
    ∀ fuel cur, P cur → MDate.Lt cur end_date → (mu end_date - mu cur).toNat < fuel →
      coversRange cur end_date (splitGo step end_date fuel cur) := by
  intro fuel
  induction fuel with
  | zero =>
      intro cur _ _ hf
      omega
  | succ n ih =>
      intro cur hP hlt hf
      unfold splitGo
      rw [if_pos hlt]
      by_cases hcand : MDate.Lt end_date (step cur)
      · rw [if_pos hcand,
          splitGo_stop step end_date n end_date (MDate.lt_irrefl end_date)]
        exact coversRange_single cur end_date hlt
      · rw [if_neg hcand]
        rcases MDate.lt_or_eq_of_not_lt (step cur) end_date hcand with h1 | h1
        · have hPc := hPstep cur hP
          have hfc : (mu end_date - mu (step cur)).toNat < n := by
            have q1 := hstepMu cur hP
            have q2 := hmonoLe (step cur) end_date hPc hPend h1
            omega
          exact coversRange_cons cur (step cur) end_date _
            (hstep cur hP) (ih (step cur) hPc h1 hfc)
        · rw [h1, splitGo_stop step end_date n end_date (MDate.lt_irrefl end_date)]
          exact coversRange_single cur end_date hlt

/-- C5: for every valid start strictly before end and positive batch
size, `split_by_days` and `split_by_months` return a non-empty interval
sequence whose first interval starts at start, whose last interval ends
at end, in which every adjacent pair is contiguous and no interval is
empty.  Validity of the endpoints is what every Python `datetime`
guarantees by construction. -/
theorem split_range_covers (start_date end_date : MDate) (nd nm : Int)
    (hvs : MDateValid start_date) (hve : MDateValid end_date)
    (hlt : MDate.Lt start_date end_date) (hnd : 1 ≤ nd) (hnm : 1 ≤ nm) :
    coversRange start_date end_date (TimeInterval.split_by_days start_date end_date nd) ∧
    coversRange start_date end_date (TimeInterval.split_by_months start_date end_date nm) := by
  constructor
  · unfold TimeInterval.split_by_days
    apply splitGo_covers (MDate.addDays nd) end_date MDateValid dayMeasure hve
    · intro d hd
      rw [MDate.addDays_of_nonneg nd d (by omega)]
      exact MDate.addDaysNat_valid _ d hd
    · intro d hd
      rw [MDate.addDays_of_nonneg nd d (by omega)]
      exact MDate.lt_addDaysNat _ d (by omega) hd
    · intro a b ha hb h
      exact dayMeasure_mono ha hb h
    · intro d hd
      rw [MDate.addDays_of_nonneg nd d (by omega)]
      exact dayMeasure_addDaysNat _ d (by omega) hd
    · exact hvs
    · exact hlt
    · unfold daysFuel dayMeasure
      omega
  · unfold TimeInterval.split_by_months
    apply splitGo_covers (MDate.addMonths nm) end_date (fun _ => True) (fun d => d.mi) trivial
    · intro d _
      trivial
    · intro d _
      unfold MDate.Lt MDate.addMonths
      left
      show d.mi < d.mi + nm
      omega
    · intro a b _ _ h
      unfold MDate.Lt at h
      omega
    · intro d _
      show d.mi + 1 ≤ (MDate.addMonths nm d).mi
      unfold MDate.addMonths
      show d.mi + 1 ≤ d.mi + nm
      omega
    · trivial
    · exact hlt
    · unfold monthsFuel
      omega

theorem split_range_covers_witness :
    (MDateValid ⟨24288, 1⟩ ∧ MDateValid ⟨24294, 1⟩ ∧
      MDate.Lt ⟨24288, 1⟩ ⟨24294, 1⟩ ∧ (1 : Int) ≤ 30 ∧ (1 : Int) ≤ 2) ∧
    (coversRange ⟨24288, 1⟩ ⟨24294, 1⟩
        (TimeInterval.split_by_days ⟨24288, 1⟩ ⟨24294, 1⟩ 30) ∧
      coversRange ⟨24288, 1⟩ ⟨24294, 1⟩
        (TimeInterval.split_by_months ⟨24288, 1⟩ ⟨24294, 1⟩ 2)) :=
  ⟨⟨by decide, by decide, by decide, by decide, by decide⟩,
    split_range_covers ⟨24288, 1⟩ ⟨24294, 1⟩ 30 2
      (by decide) (by decide) (by decide) (by decide) (by decide)⟩

/-- Sanity computation matching the spec example: splitting
2024-01-01 .. 2024-07-01 (month indices 24288 and 24294) by 2 months
yields the three contiguous two-month intervals. -/
theorem split_by_months_example :
    TimeInterval.split_by_months ⟨24288, 1⟩ ⟨24294, 1⟩ 2
      = [(⟨24288, 1⟩, ⟨24290, 1⟩), (⟨24290, 1⟩, ⟨24292, 1⟩), (⟨24292, 1⟩, ⟨24294, 1⟩)] := by
  decide

/-- Failure modes of the splitting front-end: the start-after-end error
dict and the unsupported-strategy error dict returned by
`collect_hashtag_with_time_split`. -/
inductive SplitError where
  | invalidRange
  | unsupportedUnit
deriving DecidableEq

/-- Embeds the validation and dispatch prefix of
`BatchTimeCollector.collect_hashtag_with_time_split`
(src/batch_time_collector.py lines 240-265): after parsing, a range with
start not strictly before end yields the invalid-range error return
(line 244), then the strategy is dispatched to the matching splitter,
any other strategy yielding the unsupported-strategy error return
(line 259).  An `Except.ok` value is the interval list the collection
loop then iterates. -/
def collect_hashtag_with_time_split (start_date end_date : MDate)
    (split_strategy : String) (interval_size : Int) :
    Except SplitError (List (MDate × MDate)) :=
  if ¬ MDate.Lt start_date end_date then Except.error SplitError.invalidRange
  else if split_strategy = "days" then
    Except.ok (TimeInterval.split_by_days start_date end_date interval_size)
  else if split_strategy = "months" then
    Except.ok (TimeInterval.split_by_months start_date end_date interval_size)
  else if split_strategy = "years" then
    Except.ok (TimeInterval.split_by_years start_date end_date interval_size)
  else Except.error SplitError.unsupportedUnit

/-- C4 counterexample: with start 2024-07-01 after end 2024-01-01 AND the
unrecognized strategy "weeks", the call fails with the invalid-range
error, not the unsupported-unit error the claim promises for every
unrecognized unit — the range check runs first. -/
theorem time_split_both_invalid_counterexample :
    collect_hashtag_with_time_split ⟨24294, 1⟩ ⟨24288, 1⟩ "weeks" 1
      = Except.error SplitError.invalidRange ∧
    (Except.error SplitError.invalidRange : Except SplitError (List (MDate × MDate)))
      ≠ Except.error SplitError.unsupportedUnit := by
  refine ⟨rfl, ?_⟩
  intro h
  exact SplitError.noConfusion (Except.error.inj h)

/-- C4 (amended): every input with start not strictly before end fails
with the invalid-range error (whatever the strategy), and every input
with a valid range and a strategy other than days, months and years
fails with the unsupported-unit error; when both conditions are violated
the range check takes precedence. -/
theorem time_split_validation (start_date end_date : MDate) (u : String) (n : Int) :
    (¬ MDate.Lt start_date end_date →
      collect_hashtag_with_time_split start_date end_date u n
        = Except.error SplitError.invalidRange) ∧
    (MDate.Lt start_date end_date → u ≠ "days" → u ≠ "months" → u ≠ "years" →
      collect_hashtag_with_time_split start_date end_date u n
        = Except.error SplitError.unsupportedUnit) := by
  constructor
  · intro h
    unfold collect_hashtag_with_time_split
    rw [if_pos h]
  · intro h h1 h2 h3
    unfold collect_hashtag_with_time_split
    rw [if_neg (not_not_intro h), if_neg h1, if_neg h2, if_neg h3]

theorem time_split_validation_witness :
    collect_hashtag_with_time_split ⟨24294, 1⟩ ⟨24288, 1⟩ "days" 30
      = Except.error SplitError.invalidRange ∧
    collect_hashtag_with_time_split ⟨24288, 1⟩ ⟨24294, 1⟩ "weeks" 1
      = Except.error SplitError.unsupportedUnit :=
  ⟨(time_split_validation ⟨24294, 1⟩ ⟨24288, 1⟩ "days" 30).1 (by decide),
    (time_split_validation ⟨24288, 1⟩ ⟨24294, 1⟩ "weeks" 1).2
      (by decide) (by decide) (by decide) (by decide)⟩

/-!
Job execution and persistence pipeline: `SocialMediaCrawler.collect_user`
and `async_collect_user` (src/main.py lines 314-453 and 521-642), the
three batching disciplines (`batch_collect` lines 467-519,
`async_batch_collect` lines 644-707, `multiprocess_batch_collect` lines
709-782 with the worker `_multiprocess_collect_single_user` lines
120-161), `DatabaseManager.save_collection_result` /
`save_hashtag_posts` / `save_collection_history`
(src/core/database_manager.py), and the persistence tail of
`BatchTimeCollector._collect_single_batch`
(src/batch_time_collector.py lines 347-471).

The MySQL database reachable from these paths is modelled as the five
tables the code writes; user and post payloads are opaque type
parameters `U` and `P` with an explicit composite-key projection on
posts.  The external collector call is modelled by its three observable
outcomes: the factory returned no collector, the call raised, or the
call returned a result object.  `save_collection_history` (which
catches its own write errors) is modelled as a functioning append;
media downloads and notification sends touch no database state and are
omitted.
-/

/-- Row of the `collection_history` ledger as written by
`DatabaseManager.save_collection_history`; the timing columns carry no
information the claims inspect and are left out of the payload. -/
structure HistoryEntry where
  platform : String
  username : String
  success : Bool
  post_count : Nat
  story_count : Nat
  error_message : Option String
deriving DecidableEq

/-- Mirror of `core.data_models.CollectionResult`. -/
structure CollectionResult (U P : Type) where
  success : Bool
  user : Option U
  posts : List P
  stories : List P
  error_message : Option String
deriving DecidableEq

/-- Mirror of `core.data_models.HashtagCollectionResult`. -/
structure HashtagCollectionResult (P : Type) where
  success : Bool
  posts : List P
  error_message : Option String
deriving DecidableEq

/-- The five tables written by the persistence layer. -/
structure Db (U P : Type) where
  social_users : List U
  social_posts : List P
  social_stories : List P
  social_hashtag_posts : List P
  collection_history : List HistoryEntry
deriving DecidableEq

/-- Embeds `DatabaseManager.save_user`: plain historical append. -/
def save_user {U P : Type} (u : U) (db : Db U P) : Db U P :=
  { db with social_users := db.social_users ++ [u] }

/-- Embeds `DatabaseManager.save_posts`: early return on an empty list,
otherwise the delete-then-insert upsert on `social_posts`. -/
def save_posts {U P K : Type} [DecidableEq K] (key : P → K) (posts : List P)
    (db : Db U P) : Db U P :=
  if posts.isEmpty then db
  else { db with social_posts := updateTable key posts db.social_posts }

/-- Embeds `DatabaseManager.save_stories` on `social_stories`. -/
def save_stories {U P K : Type} [DecidableEq K] (key : P → K) (stories : List P)
    (db : Db U P) : Db U P :=
  if stories.isEmpty then db
  else { db with social_stories := updateTable key stories db.social_stories }

/-- Embeds `DatabaseManager.save_collection_history`: an append to the
ledger (the source catches its own write failures; the ledger is
modelled as functioning). -/
def save_collection_history {U P : Type} (e : HistoryEntry) (db : Db U P) : Db U P :=
  { db with collection_history := db.collection_history ++ [e] }

/-- Embeds `DatabaseManager.save_collection_result` (lines 255-292):
refuse failed results, refuse results without a user (before any
write), otherwise append the user row and then upsert the non-empty
post and story lists. -/
def save_collection_result {U P K : Type} [DecidableEq K] (key : P → K)
    (r : CollectionResult U P) (db : Db U P) : Bool × Db U P :=
  if r.success then
    match r.user with
    | none => (false, db)
    | some u =>
        let db1 := save_user u db
        let db2 := if r.posts.isEmpty then db1 else save_posts key r.posts db1
        let db3 := if r.stories.isEmpty then db2 else save_stories key r.stories db2
        (true, db3)
  else (false, db)

/-- Embeds the pandas `drop_duplicates(subset=keys, keep='last')`
pre-pass of `save_hashtag_posts`: keep only the last occurrence of each
key, preserving the order of the kept rows. -/
def dedupKeepLast {P K : Type} [DecidableEq K] (key : P → K) : List P → List P
  | [] => []
  | p :: rest =>
      if key p ∈ rest.map key then dedupKeepLast key rest
      else p :: dedupKeepLast key rest

/-- Embeds `DatabaseManager.save_hashtag_posts` (lines 373-429): early
return on empty input, keep-last dedup, early return when nothing is
left, then the upsert on `social_hashtag_posts`. -/
def save_hashtag_posts {U P K : Type} [DecidableEq K] (key : P → K) (posts : List P)
    (db : Db U P) : Db U P :=
  if posts.isEmpty then db
  else if (dedupKeepLast key posts).isEmpty then db
  else { db with social_hashtag_posts :=
          updateTable key (dedupKeepLast key posts) db.social_hashtag_posts }

/-- Embeds `DatabaseManager.save_hashtag_collection_result`
(lines 431-459). -/
def save_hashtag_collection_result {U P K : Type} [DecidableEq K] (key : P → K)
    (r : HashtagCollectionResult P) (db : Db U P) : Bool × Db U P :=
  if r.success then
    (true, if r.posts.isEmpty then db else save_hashtag_posts key r.posts db)
  else (false, db)

/-- Observable outcomes of one external account-collector interaction
inside `collect_user`: the factory returned `None`, `collect_all`
raised, or `collect_all` returned a result object. -/
inductive CollectorOutcome (U P : Type) where
  | unavailable
  | raises (msg : String)
  | returns (r : CollectionResult U P)
deriving DecidableEq

/-- Embeds `SocialMediaCrawler.collect_user` (src/main.py lines
314-453): a missing collector returns a failed result BEFORE any ledger
write; an exception from the collector call is caught, one failure
ledger entry is appended and a failed result is returned; a returned
result is persisted when successful and always followed by exactly one
ledger entry carrying its success flag and counts. -/
def collect_user {U P K : Type} [DecidableEq K] (key : P → K)
    (platform username : String) (co : CollectorOutcome U P) (db : Db U P) :
    CollectionResult U P × Db U P :=
  match co with
  | CollectorOutcome.unavailable =>
      (⟨false, none, [], [], some "cannot create collector"⟩, db)
  | CollectorOutcome.raises msg =>
      (⟨false, none, [], [], some msg⟩,
        save_collection_history ⟨platform, username, false, 0, 0, some msg⟩ db)
  | CollectorOutcome.returns r =>
      let db1 := if r.success then (save_collection_result key r db).2 else db
      let db2 := save_collection_history
        ⟨platform, username, r.success, r.posts.length, r.stories.length,
          r.error_message⟩ db1
      (r, db2)

/-- Embeds `SocialMediaCrawler.async_collect_user` (lines 521-642),
whose guard and except structure is identical to `collect_user`. -/
def async_collect_user {U P K : Type} [DecidableEq K] (key : P → K)
    (platform username : String) (co : CollectorOutcome U P) (db : Db U P) :
    CollectionResult U P × Db U P :=
  collect_user key platform username co db

/-- Embeds the loop body of `SocialMediaCrawler.batch_collect` (lines
499-515): one `collect_user` per job in order, every iteration running
regardless of earlier failures (the loop's own try/except continues);
the per-job results, which the source logs and discards, are retained
here as the observable outcome list. -/
def batch_collect {U P K : Type} [DecidableEq K] (key : P → K) (platform : String)
    (jobs : List (String × CollectorOutcome U P)) (db : Db U P) :
    List (CollectionResult U P) × Db U P :=
  match jobs with
  | [] => ([], db)
  | (u, co) :: rest =>
      let rdb := collect_user key platform u co db
      let rest2 := batch_collect key platform rest rdb.2
      (rdb.1 :: rest2.1, rest2.2)

/-- Embeds `collect_with_semaphore` inside `async_batch_collect` (lines
681-697): it awaits `async_collect_user` and returns its result; its own
except branch returns `none`, which the embedded total
`async_collect_user` never triggers. -/
def collect_with_semaphore {U P K : Type} [DecidableEq K] (key : P → K)
    (platform : String) (job : String × CollectorOutcome U P) (db : Db U P) :
    Option (CollectionResult U P) × Db U P :=
  let rdb := async_collect_user key platform job.1 job.2 db
  (some rdb.1, rdb.2)

/-- Embeds `SocialMediaCrawler.async_batch_collect` (lines 644-707): all
jobs are launched and `asyncio.gather(..., return_exceptions=True)`
collects one settled result per job.  Cooperative tasks interleave only
at sleep/await points; the database write order is abstracted to
submission order, which the claims never inspect. -/
def async_batch_collect {U P K : Type} [DecidableEq K] (key : P → K)
    (platform : String) (jobs : List (String × CollectorOutcome U P)) (db : Db U P) :
    List (Option (CollectionResult U P)) × Db U P :=
  match jobs with
  | [] => ([], db)
  | j :: rest =>
      let rdb := collect_with_semaphore key platform j db
      let rest2 := async_batch_collect key platform rest rdb.2
      (rdb.1 :: rest2.1, rest2.2)

/-- Outcome dictionary a pool worker sends back to the parent. -/
structure WorkerReport where
  username : String
  success : Bool
  error_message : Option String
  post_count : Nat
  story_count : Nat
deriving DecidableEq

/-- Embeds the pool worker `_multiprocess_collect_single_user`
(src/main.py lines 120-161): run `collect_user` against the worker's own
freshly constructed crawler/database connection and report a dictionary;
any exception becomes a success-false dictionary. -/
def multiprocess_collect_single_user {U P K : Type} [DecidableEq K] (key : P → K)
    (platform : String) (args : String × CollectorOutcome U P) (db : Db U P) :
    WorkerReport :=
  let res := (collect_user key platform args.1 args.2 db).1
  ⟨args.1, res.success, res.error_message,
    if res.success then res.posts.length else 0,
    if res.success then res.stories.length else 0⟩

/-- Embeds `SocialMediaCrawler.multiprocess_batch_collect` (lines
709-782): `pool.map` applies the worker to every job and preserves input
order; workers share no in-process state, each starting from its own
database connection `db`. -/
def multiprocess_batch_collect {U P K : Type} [DecidableEq K] (key : P → K)
    (platform : String) (jobs : List (String × CollectorOutcome U P)) (db : Db U P) :
    List WorkerReport :=
  jobs.map (fun j => multiprocess_collect_single_user key platform j db)

/-- Observable outcomes of one external hashtag-collector interaction
inside `_collect_single_batch`. -/
inductive HashtagOutcome (P : Type) where
  | unavailable
  | raises (msg : String)
  | returns (r : HashtagCollectionResult P)
deriving DecidableEq

/-- The post list of a hashtag batch after the interval filter of
`_collect_single_batch` (lines 404-427): non-Twitter platforms filter a
successful non-empty result by the in-interval predicate, Twitter
results were already filtered by the API. -/
def batchFilteredPosts {P : Type} (platform : String) (inRange : P → Bool)
    (r : HashtagCollectionResult P) : List P :=
  if r.success ∧ ¬ r.posts.isEmpty ∧ platform ≠ "twitter" then
    r.posts.filter inRange
  else r.posts

/-- Embeds `BatchTimeCollector._collect_single_batch` (lines 347-471):
a missing collector or a raising collector call yields a failed result
with NO ledger write; a returned result is interval-filtered, and only
a successful result with a non-empty filtered post list is persisted and
followed by one ledger entry (both writes sit under the same
`if result.success and result.posts` guard, lines 440-456). -/
def collect_single_batch {U P K : Type} [DecidableEq K] (key : P → K)
    (platform hashtag : String) (inRange : P → Bool) (co : HashtagOutcome P)
    (db : Db U P) : HashtagCollectionResult P × Db U P :=
  match co with
  | HashtagOutcome.unavailable =>
      (⟨false, [], some "cannot create hashtag collector"⟩, db)
  | HashtagOutcome.raises msg => (⟨false, [], some msg⟩, db)
  | HashtagOutcome.returns r =>
      let r1 : HashtagCollectionResult P :=
        { r with posts := batchFilteredPosts platform inRange r }
      if r1.success ∧ ¬ r1.posts.isEmpty then
        let db1 := (save_hashtag_collection_result key r1 db).2
        let db2 := save_collection_history
          ⟨platform, "hashtag_" ++ hashtag, r1.success, r1.posts.length, 0,
            r1.error_message⟩ db1
        (r1, db2)
      else (r1, db)

theorem save_posts_users {U P K : Type} [DecidableEq K] (key : P → K)
    (ps : List P) (db : Db U P) :
    (save_posts key ps db).social_users = db.social_users := by
  unfold save_posts
  split_ifs <;> rfl

theorem save_stories_users {U P K : Type} [DecidableEq K] (key : P → K)
    (ps : List P) (db : Db U P) :
    (save_stories key ps db).social_users = db.social_users := by
  unfold save_stories
  split_ifs <;> rfl

theorem save_collection_result_history {U P K : Type} [DecidableEq K] (key : P → K)
    (r : CollectionResult U P) (db : Db U P) :
    ((save_collection_result key r db).2).collection_history = db.collection_history := by
  unfold save_collection_result save_user save_posts save_stories
  cases hs : r.success
  · simp
  · cases hu : r.user
    · simp
    · split_ifs <;> rfl

theorem save_hashtag_collection_result_history {U P K : Type} [DecidableEq K]
    (key : P → K) (r : HashtagCollectionResult P) (db : Db U P) :
    ((save_hashtag_collection_result key r db).2).collection_history
      = db.collection_history := by
  unfold save_hashtag_collection_result save_hashtag_posts
  split_ifs <;> rfl

/-- C3 counterexample: a hashtag batch whose collector call returns a
failed result appends NOTHING to the collection-history ledger — zero
entries on an initially empty ledger instead of the exactly-one the
claim demands for every job execution. -/
theorem hashtag_batch_failure_no_history_entry :
    ((collect_single_batch Prod.fst "instagram" "travel" (fun _ => true)
        (HashtagOutcome.returns ⟨false, [], some "Apify actor failed"⟩)
        (⟨[], [], [], [], []⟩ : Db String (String × Int))).2).collection_history = [] ∧
    ([] : List HistoryEntry).length ≠ ([] : List HistoryEntry).length + 1 := by
  refine ⟨rfl, by simp⟩

/-- C3 (amended): an account collection (`collect_user`) appends exactly
one ledger entry whether the collector call succeeds or raises, EXCEPT
when the collector cannot even be created, which returns early with zero
entries; a hashtag batch (`_collect_single_batch`) appends exactly one
entry only when the collector call returns a successful result whose
interval-filtered post list is non-empty, and zero entries otherwise
(failed batches, raising calls, missing collectors, empty batches). -/
theorem collection_history_one_entry {U P K : Type} [DecidableEq K] (key : P → K)
    (platform username hashtag : String) (inRange : P → Bool)
    (co : CollectorOutcome U P) (hco : HashtagOutcome P) (db : Db U P) :
    ((collect_user key platform username co db).2).collection_history.length
      = db.collection_history.length
        + (match co with
            | CollectorOutcome.unavailable => 0
            | CollectorOutcome.raises _ => 1
            | CollectorOutcome.returns _ => 1) ∧
    ((collect_single_batch key platform hashtag inRange hco db).2).collection_history.length
      = db.collection_history.length
        + (match hco with
            | HashtagOutcome.returns r =>
                if r.success ∧ ¬ (batchFilteredPosts platform inRange r).isEmpty
                then 1 else 0
            | _ => 0) := by
  constructor
  · cases co with
    | unavailable => simp [collect_user]
    | raises m => simp [collect_user, save_collection_history]
    | returns r =>
        have hh : (if r.success then (save_collection_result key r db).2 else db).collection_history
            = db.collection_history := by
          split_ifs
          · exact save_collection_result_history key r db
          · rfl
        simp [collect_user, save_collection_history, hh]
  · cases hco with
    | unavailable => simp [collect_single_batch]
    | raises m => simp [collect_single_batch]
    | returns r =>
        have hh := save_hashtag_collection_result_history key
          ({ r with posts := batchFilteredPosts platform inRange r }) db
        by_cases hg : (r.success ∧ ¬ (batchFilteredPosts platform inRange r).isEmpty)
        · simp only [collect_single_batch]
          rw [if_pos hg, if_pos hg]
          simp only [save_collection_history]
          rw [hh]
          simp
        · simp only [collect_single_batch]
          rw [if_neg hg, if_neg hg]
          simp

/-- C10: `save_collection_result` with an absent user writes nothing to
storage and returns False, even when the result is flagged successful
and carries posts (the user check precedes every write); and more
generally, whenever no user row was appended, the whole database is
unchanged — posts and stories are persisted only after a user row has
been appended. -/
theorem save_result_requires_user {U P K : Type} [DecidableEq K] (key : P → K)
    (r : CollectionResult U P) (db : Db U P) :
    (r.user = none → save_collection_result key r db = (false, db)) ∧
    ((save_collection_result key r db).2.social_users = db.social_users →
      (save_collection_result key r db).2 = db) := by
  constructor
  · intro hu
    unfold save_collection_result
    rw [hu]
    split_ifs <;> rfl
  · intro husers
    cases hs : r.success
    · unfold save_collection_result at *
      rw [hs] at husers ⊢
      rfl
    · cases hu : r.user with
      | none =>
          unfold save_collection_result at *
          rw [hs, hu] at husers ⊢
          rfl
      | some u =>
          exfalso
          unfold save_collection_result at husers
          rw [hs, hu] at husers
          simp only [if_true] at husers
          have h2 : ((if r.stories.isEmpty then
              (if r.posts.isEmpty then save_user u db
                else save_posts key r.posts (save_user u db))
            else save_stories key r.stories
              (if r.posts.isEmpty then save_user u db
                else save_posts key r.posts (save_user u db))) : Db U P).social_users
              = db.social_users ++ [u] := by
            split_ifs <;>
              simp [save_stories_users, save_posts_users, save_user]
          rw [h2] at husers
          have := congrArg List.length husers
          simp at this

theorem save_result_requires_user_witness :
    (save_collection_result Prod.fst
        (⟨true, none, [("K", 1)], [], none⟩ : CollectionResult String (String × Int))
        (⟨[], [], [], [], []⟩ : Db String (String × Int))
      = (false, ⟨[], [], [], [], []⟩)) ∧
    ((save_collection_result Prod.fst
        (⟨false, some "alice", [("K", 1)], [], none⟩ : CollectionResult String (String × Int))
        (⟨[], [], [], [], []⟩ : Db String (String × Int))).2
      = ⟨[], [], [], [], []⟩) :=
  ⟨(save_result_requires_user Prod.fst
      (⟨true, none, [("K", 1)], [], none⟩ : CollectionResult String (String × Int))
      (⟨[], [], [], [], []⟩ : Db String (String × Int))).1 rfl,
    (save_result_requires_user Prod.fst
      (⟨false, some "alice", [("K", 1)], [], none⟩ : CollectionResult String (String × Int))
      (⟨[], [], [], [], []⟩ : Db String (String × Int))).2 rfl⟩

theorem collect_user_result_const {U P K : Type} [DecidableEq K] (key : P → K)
    (platform u : String) (co : CollectorOutcome U P) (db db2 : Db U P) :
    (collect_user key platform u co db).1 = (collect_user key platform u co db2).1 := by
  cases co <;> rfl

theorem batch_collect_forall {U P K : Type} [DecidableEq K] (key : P → K)
    (platform : String) (db0 : Db U P) :
    ∀ (jobs : List (String × CollectorOutcome U P)) (db : Db U P),
      List.Forall₂
        (fun j r => r = (collect_user key platform j.1 j.2 db0).1 ∧
          ∀ m, j.2 = CollectorOutcome.raises m → r.success = false)
        jobs (batch_collect key platform jobs db).1 := by
  intro jobs
  induction jobs with
  | nil => intro db; exact List.Forall₂.nil
  | cons j rest ih =>
      intro db
      cases j with
      | mk u co =>
          refine List.Forall₂.cons ⟨?_, ?_⟩ (ih _)
          · exact collect_user_result_const key platform u co db db0
          · intro m hm
            cases hm
            rfl

theorem async_batch_collect_forall {U P K : Type} [DecidableEq K] (key : P → K)
    (platform : String) (db0 : Db U P) :
    ∀ (jobs : List (String × CollectorOutcome U P)) (db : Db U P),
      List.Forall₂
        (fun j r => r = some (async_collect_user key platform j.1 j.2 db0).1 ∧
          ∀ m, j.2 = CollectorOutcome.raises m →
            ∃ cr, r = some cr ∧ cr.success = false)
        jobs (async_batch_collect key platform jobs db).1 := by
  intro jobs
  induction jobs with
  | nil => intro db; exact List.Forall₂.nil
  | cons j rest ih =>
      intro db
      cases j with
      | mk u co =>
          refine List.Forall₂.cons ⟨?_, ?_⟩ (ih _)
          · show some (collect_user key platform u co db).1
              = some (collect_user key platform u co db0).1
            rw [collect_user_result_const key platform u co db db0]
          · intro m hm
            cases hm
            exact ⟨(collect_user key platform u (CollectorOutcome.raises m) db).1, rfl, rfl⟩

theorem multiprocess_batch_collect_forall {U P K : Type} [DecidableEq K] (key : P → K)
    (platform : String) (dbw : Db U P)
    (jobs : List (String × CollectorOutcome U P)) :
    List.Forall₂
      (fun j w => w = multiprocess_collect_single_user key platform j dbw ∧
        ∀ m, j.2 = CollectorOutcome.raises m → w.success = false)
      jobs (multiprocess_batch_collect key platform jobs dbw) := by
  induction jobs with
  | nil => exact List.Forall₂.nil
  | cons j rest ih =>
      refine List.Forall₂.cons ⟨rfl, ?_⟩ ih
      intro m hm
      cases j with
      | mk u co =>
          simp only at hm
          cases hm
          rfl

/-- C8: in all three disciplines, a job whose external collector call
raises yields a failed outcome (success flag false) while every other
job of the batch still runs and yields the outcome determined by its
own collector interaction alone — each job list is mapped to an outcome
list of the same length (`List.Forall₂` forces equal lengths), the i-th
outcome depending only on the i-th job. -/
theorem collector_exception_isolated {U P K : Type} [DecidableEq K] (key : P → K)
    (platform : String) (jobs : List (String × CollectorOutcome U P)) (db dbw : Db U P) :
    List.Forall₂
      (fun j r => r = (collect_user key platform j.1 j.2 db).1 ∧
        ∀ m, j.2 = CollectorOutcome.raises m → r.success = false)
      jobs (batch_collect key platform jobs db).1 ∧
    List.Forall₂
      (fun j r => r = some (async_collect_user key platform j.1 j.2 db).1 ∧
        ∀ m, j.2 = CollectorOutcome.raises m →
          ∃ cr, r = some cr ∧ cr.success = false)
      jobs (async_batch_collect key platform jobs db).1 ∧
    List.Forall₂
      (fun j w => w = multiprocess_collect_single_user key platform j dbw ∧
        ∀ m, j.2 = CollectorOutcome.raises m → w.success = false)
      jobs (multiprocess_batch_collect key platform jobs dbw) :=
  ⟨batch_collect_forall key platform db jobs db,
    async_batch_collect_forall key platform db jobs db,
    multiprocess_batch_collect_forall key platform dbw jobs⟩

/-!
Singleton execution lock: the `file_lock` context manager
(src/main.py lines 41-116, POSIX branch).  The OS state visible to the
code is whether some process holds the advisory `flock` on the lock
path and whether the lock file exists.  `open(path, "w")` creates the
file; `flock(LOCK_EX | LOCK_NB)` atomically either acquires the free
lock or raises at once (no queueing, no retry); on failure the source
closes the file and calls `sys.exit(1)` before the body ever runs (the
`finally` block's unlock then raises on the closed descriptor and is
swallowed, so the loser does NOT delete the winner's lock file); on
success the body runs under the lock and the `finally` block unlocks,
closes and removes the file on both the normal and the exception exit
path (a body exception is re-raised after logging).  The two
concurrently started processes are modelled by the order in which the
OS serialises their atomic `flock` calls; the loser necessarily
observes the winner as holder because the winner only releases after
its body finished. -/

/-- OS-visible lock state: current holder of the advisory lock, and
existence of the lock file. -/
structure LockWorld where
  holder : Option Nat
  fileExists : Bool
deriving DecidableEq

/-- Opening the lock file with mode "w" creates (or truncates) it. -/
def lock_open (w : LockWorld) : LockWorld :=
  { w with fileExists := true }

/-- The atomic non-blocking `flock` attempt after the open. -/
def lock_try_acquire (pid : Nat) (w : LockWorld) : Except Unit LockWorld :=
  match (lock_open w).holder with
  | some _ => Except.error ()
  | none => Except.ok { lock_open w with holder := some pid }

/-- The `finally` block of the winner: unlock, close, delete the file. -/
def lock_release_cleanup (w : LockWorld) : LockWorld :=
  { w with holder := none, fileExists := false }

/-- Outcome of one process running `file_lock`: whether the wrapped body
ran, the `sys.exit` status if any, whether a body exception propagated,
and the world as this process left it. -/
structure LockRun where
  bodyRan : Bool
  exited : Option Nat
  raised : Bool
  world : LockWorld
deriving DecidableEq

/-- Embeds one process executing `with file_lock(path): body`. -/
def file_lock (pid : Nat) (body : Except String Unit) (w : LockWorld) : LockRun :=
  match lock_try_acquire pid w with
  | Except.error _ =>
      { bodyRan := false, exited := some 1, raised := false, world := lock_open w }
  | Except.ok w1 =>
      match body with
      | Except.ok _ =>
          { bodyRan := true, exited := none, raised := false,
            world := lock_release_cleanup w1 }
      | Except.error _ =>
          { bodyRan := true, exited := none, raised := true,
            world := lock_release_cleanup w1 }

/-- Two processes invoke `file_lock` concurrently on the same path,
starting from a free world; `firstIsP1` says whose atomic `flock` the
OS serialises first.  The second attempt happens while the first holder
is still inside its body, i.e. against the first acquirer's
intermediate world. -/
def lock_race (p1 p2 : Nat) (body1 body2 : Except String Unit) (firstIsP1 : Bool) :
    LockRun × LockRun :=
  if firstIsP1 then
    match lock_try_acquire p1 { holder := none, fileExists := false } with
    | Except.ok wHeld =>
        (file_lock p1 body1 { holder := none, fileExists := false },
          file_lock p2 body2 wHeld)
    | Except.error _ =>
        (file_lock p1 body1 { holder := none, fileExists := false },
          file_lock p2 body2 { holder := none, fileExists := false })
  else
    match lock_try_acquire p2 { holder := none, fileExists := false } with
    | Except.ok wHeld =>
        (file_lock p1 body1 wHeld,
          file_lock p2 body2 { holder := none, fileExists := false })
    | Except.error _ =>
        (file_lock p1 body1 { holder := none, fileExists := false },
          file_lock p2 body2 { holder := none, fileExists := false })

/-- C9: when two processes race on the same lock path, exactly one of
them runs the wrapped body; the loser exits with status 1 without the
body ever running and without queueing or retrying (the model contains
a single non-blocking acquisition attempt); the winner, on every exit
path — body returning or body raising — ends with the lock released and
the lock file deleted. -/
theorem singleton_lock_exclusive (p1 p2 : Nat) (b1 b2 : Except String Unit)
    (firstIsP1 : Bool) :
    ((lock_race p1 p2 b1 b2 firstIsP1).1.bodyRan
        ≠ (lock_race p1 p2 b1 b2 firstIsP1).2.bodyRan) ∧
    (if (lock_race p1 p2 b1 b2 firstIsP1).1.bodyRan then
        (lock_race p1 p2 b1 b2 firstIsP1).1.exited = none ∧
        (lock_race p1 p2 b1 b2 firstIsP1).1.world.holder = none ∧
        (lock_race p1 p2 b1 b2 firstIsP1).1.world.fileExists = false
      else (lock_race p1 p2 b1 b2 firstIsP1).1.exited = some 1) ∧
    (if (lock_race p1 p2 b1 b2 firstIsP1).2.bodyRan then
        (lock_race p1 p2 b1 b2 firstIsP1).2.exited = none ∧
        (lock_race p1 p2 b1 b2 firstIsP1).2.world.holder = none ∧
        (lock_race p1 p2 b1 b2 firstIsP1).2.world.fileExists = false
      else (lock_race p1 p2 b1 b2 firstIsP1).2.exited = some 1) := by
  cases firstIsP1 <;> cases b1 <;> cases b2 <;>
    simp [lock_race, file_lock, lock_try_acquire, lock_open, lock_release_cleanup]
